import Mathlib

/-
  Shallow embedding of src/src/async-hook.ts (the hook-composition engine).

  Modelling conventions:
  * A settled asynchronous computation (a promise chain together with the
    side effects it performs) is a state-passing function
    `Js σ ε α := σ → σ × Except ε α`; the state `σ` is instantiated with an
    event trace in the theorems, so that sequencing facts ("h1 completes
    before h2 starts") become facts about the produced trace.  This is
    faithful because the engine chains every step with .then/.catch and
    nothing ever runs concurrently (spec section 5).
  * Calling a JS function that is supposed to return a promise can either
    throw synchronously or return a promise; the two collapse as soon as the
    result is awaited (Promise.resolve().then(...)), which is what the engine
    does everywhere EXCEPT in the error-hook loop (async-hook.ts lines
    197-206), where a try/catch distinguishes them.  Error hooks are
    therefore modelled with the two-layer result type `CallRes`; all other
    hooks are only ever awaited, so they are modelled directly as `Js`
    computations.
  * The registry maps a name to the list of entries registered under it;
    an absent name and an empty list are identified (addHook never stores an
    empty array, removeHook deletes a key that becomes empty, and the spec's
    registry invariant declares the two representations behaviorally equal).
  * removeHook (async-hook.ts lines 100-124) only compares function
    identities and never calls a hook, so it is modelled separately over
    entries that carry identity tags (`RemEntry`).
-/

/-- A settled asynchronous computation: runs from a trace/state, produces the
final trace/state and either a value or a failure value. -/
abbrev Js (σ ε α : Type) : Type := σ → σ × Except ε α

instance {ε α : Type} [DecidableEq ε] [DecidableEq α] :
    DecidableEq (Except ε α) := fun a b =>
  match a, b with
  | Except.ok x, Except.ok y =>
    if h : x = y then isTrue (by rw [h]) else isFalse (by simp [h])
  | Except.ok _, Except.error _ => isFalse (by simp)
  | Except.error _, Except.ok _ => isFalse (by simp)
  | Except.error x, Except.error y =>
    if h : x = y then isTrue (by rw [h]) else isFalse (by simp [h])

/-- Promise.resolve(a). -/
def Js.pure {σ ε α : Type} (a : α) : Js σ ε α := fun s => (s, Except.ok a)

/-- Promise rejection / throw inside a then-callback. -/
def Js.fail {σ ε α : Type} (e : ε) : Js σ ε α := fun s => (s, Except.error e)

/-- p.then(f): runs p; on success feeds the value to f, on failure
short-circuits with the failure. -/
def Js.then {σ ε α β : Type} (x : Js σ ε α) (f : α → Js σ ε β) : Js σ ε β :=
  fun s =>
    match x s with
    | (s1, Except.ok a) => f a s1
    | (s1, Except.error e) => (s1, Except.error e)

/-- p.catch(h): runs p; on failure feeds the failure value to h. -/
def Js.catch {σ ε α : Type} (x : Js σ ε α) (h : ε → Js σ ε α) : Js σ ε α :=
  fun s =>
    match x s with
    | (s1, Except.ok a) => (s1, Except.ok a)
    | (s1, Except.error e) => h e s1

/-- Result of calling a JS function that is expected to return a promise:
either it threw synchronously, or it returned and the returned promise
settled to `r`. -/
inductive CallRes (ε α : Type) where
  | thrown (e : ε)
  | ret (r : Except ε α)
deriving DecidableEq

/-- Awaiting collapses a synchronous throw and a rejected returned promise. -/
def CallRes.settle {ε α : Type} : CallRes ε α → Except ε α
  | CallRes.thrown e => Except.error e
  | CallRes.ret r => r

/-- One registry entry: the consumer's original callable tagged by kind
(the `{hook, orig, type}` record of async-hook.ts lines 93-97, keeping the
`orig` callable, which is the only field `register` reads).
Argument shapes per kind follow async-hook.ts lines 149-207:
before receives the payload; after receives (result, payload); error receives
(failure, payload) with the sync/async distinction (see CallRes); wrap
receives a callable and yields a callable. -/
inductive HookEntry (σ ε V : Type) where
  | before (orig : V → Js σ ε V)
  | after (orig : V → V → Js σ ε V)
  | error (orig : ε → V → σ → σ × CallRes ε V)
  | wrap (orig : (V → Js σ ε V) → V → Js σ ε V)

/-- Registry for one Hook instance: name to entry list, [] meaning absent. -/
def Registry (σ ε V : Type) : Type := String → List (HookEntry σ ε V)

/-- hooks.filter(h => h.type === 'before').map(h => h.orig). -/
def beforeOrigs {σ ε V : Type} : List (HookEntry σ ε V) → List (V → Js σ ε V)
  | [] => []
  | HookEntry.before f :: t => f :: beforeOrigs t
  | HookEntry.after _ :: t => beforeOrigs t
  | HookEntry.error _ :: t => beforeOrigs t
  | HookEntry.wrap _ :: t => beforeOrigs t

/-- hooks.filter(h => h.type === 'after').map(h => h.orig). -/
def afterOrigs {σ ε V : Type} : List (HookEntry σ ε V) → List (V → V → Js σ ε V)
  | [] => []
  | HookEntry.before _ :: t => afterOrigs t
  | HookEntry.after f :: t => f :: afterOrigs t
  | HookEntry.error _ :: t => afterOrigs t
  | HookEntry.wrap _ :: t => afterOrigs t

/-- hooks.filter(h => h.type === 'error').map(h => h.orig). -/
def errorOrigs {σ ε V : Type} :
    List (HookEntry σ ε V) → List (ε → V → σ → σ × CallRes ε V)
  | [] => []
  | HookEntry.before _ :: t => errorOrigs t
  | HookEntry.after _ :: t => errorOrigs t
  | HookEntry.error f :: t => f :: errorOrigs t
  | HookEntry.wrap _ :: t => errorOrigs t

/-- hooks.filter(h => h.type === 'wrap').map(h => h.orig). -/
def wrapOrigs {σ ε V : Type} :
    List (HookEntry σ ε V) → List ((V → Js σ ε V) → V → Js σ ε V)
  | [] => []
  | HookEntry.before _ :: t => wrapOrigs t
  | HookEntry.after _ :: t => wrapOrigs t
  | HookEntry.error _ :: t => wrapOrigs t
  | HookEntry.wrap f :: t => f :: wrapOrigs t

/-- async-hook.ts lines 147-151:
`let wrappedMethod = method; for (const w of wrapHooks) wrappedMethod = w.orig(wrappedMethod);` -/
def applyWraps {σ ε V : Type} (ws : List ((V → Js σ ε V) → V → Js σ ε V))
    (m : V → Js σ ε V) : V → Js σ ε V :=
  ws.foldl (fun acc w => w acc) m

/-- async-hook.ts lines 163-168: `let promise = Promise.resolve();
for (const b of beforeHooks) promise = promise.then(() => b.orig(options));`.
The chain's value is never inspected, so it is carried as PUnit. -/
def beforeFold {σ ε V : Type} (bs : List (V → Js σ ε V)) (opts : V) :
    Js σ ε PUnit :=
  bs.foldl
    (fun p b => Js.then p (fun _ => Js.then (b opts) (fun _ => Js.pure PUnit.unit)))
    (Js.pure PUnit.unit)

/-- async-hook.ts lines 178-188: `let promise = Promise.resolve(result);
for (const a of afterHooks) promise = promise.then(cur =>
Promise.resolve(a.orig(cur, options)).then(() => cur));`. -/
def afterChain {σ ε V : Type} (as_ : List (V → V → Js σ ε V)) (opts : V)
    (r : V) : Js σ ε V :=
  as_.foldl
    (fun p a => Js.then p (fun cur => Js.then (a cur opts) (fun _ => Js.pure cur)))
    (Js.pure r)

/-- async-hook.ts lines 197-206: `for (const eh of errorHooks) {
try { return eh.orig(error, options); } catch (e) { } } throw error;`
A synchronously-throwing error hook is skipped (its side effects kept); the
first one that returns has its returned promise adopted as the outcome; if
all of them throw synchronously the original failure is rethrown. -/
def errorLoop {σ ε V : Type} (es : List (ε → V → σ → σ × CallRes ε V))
    (err : ε) (opts : V) : Js σ ε V :=
  match es with
  | [] => fun s => (s, Except.error err)
  | h :: t => fun s =>
    match h err opts s with
    | (s1, CallRes.thrown _) => errorLoop t err opts s1
    | (s1, CallRes.ret r) => (s1, r)

/-- async-hook.ts lines 145-210: the composed callable for one name's entry
list, applied to the payload.  Layer 1 applies the wrap hooks; Layer 2 chains
before hooks, the wrapped method, after hooks, and the error-hook catch. -/
def composed {σ ε V : Type} (hooks : List (HookEntry σ ε V))
    (method : V → Js σ ε V) (opts : V) : Js σ ε V :=
  let wrappedMethod := applyWraps (wrapOrigs hooks) method
  let withBefore : V → Js σ ε V :=
    fun o => Js.then (beforeFold (beforeOrigs hooks) o) (fun _ => wrappedMethod o)
  let withAfter : V → Js σ ε V :=
    fun o => Js.then (withBefore o) (fun r => afterChain (afterOrigs hooks) o r)
  let withError : V → Js σ ε V :=
    fun o => Js.catch (withAfter o) (fun e => errorLoop (errorOrigs hooks) e o)
  withError opts

/-- async-hook.ts lines 137-211: register for a single (string) name and a
callable method.  The whole body sits inside Promise.resolve().then, so the
result is a settled computation; an absent/empty name calls the method
directly (line 138-140). -/
def register1 {σ ε V : Type} (reg : Registry σ ε V) (name : String)
    (method : V → Js σ ε V) (opts : V) : Js σ ε V :=
  if (reg name).isEmpty then method opts
  else composed (reg name) method opts

/-- async-hook.ts lines 131-134:
`return name.reverse().reduce((callback, name) =>
this.register.bind(this, name, callback, options), method)();`.
`Array.prototype.reverse` reverses the caller's array IN PLACE and returns
that same array; the embedding threads the array cell explicitly, so the
second component is the contents of the caller's array after `register`
returns.  Each bound callback ignores the argument it is invoked with
(register's three parameters are already bound), hence the `fun _ =>`. -/
def registerList {σ ε V : Type} (reg : Registry σ ε V) (opts : V)
    (names : List String) (m : V → Js σ ε V) :
    (V → Js σ ε V) × List String :=
  let arr := names.reverse
  (arr.foldl (fun cb n => fun _ => register1 reg n cb opts) m, arr)

/-- The multi-name invocation: the reduce result is finally invoked with no
arguments, i.e. with the JS `undefined` value (`undef`); for a non-empty name
list that argument is ignored, for an empty list the base method itself
receives it. -/
def registerMulti {σ ε V : Type} (reg : Registry σ ε V) (undef : V) (opts : V)
    (names : List String) (m : V → Js σ ε V) : Js σ ε V :=
  (registerList reg opts names m).1 undef

/-- First argument of register: a single name or an array of names. -/
inductive NameArg where
  | single (n : String)
  | list (ns : List String)

/-- Second argument of register: a callable, or any non-callable value
(`typeof method !== "function"`). -/
inductive MethodArg (σ ε V : Type) where
  | fn (f : V → Js σ ε V)
  | notFn

/-- Failure values observable from the top-level register call: the engine's
own `new Error("method for hook must be a function")` (a fresh object, hence
distinct from every consumer failure) or a consumer failure. -/
inductive TopErr (ε : Type) where
  | invalidArgument
  | err (e : ε)
deriving DecidableEq

/-- async-hook.ts lines 126-211: the public entry point.  The method check on
lines 127-129 throws synchronously, before any promise is created and before
any hook or the base method runs; otherwise the (settled) single- or
multi-name composition result is returned as a promise. -/
def register {σ ε V : Type} (reg : Registry σ ε V) (undef : V)
    (name : NameArg) (method : MethodArg σ ε V) (opts : V) :
    σ → σ × CallRes (TopErr ε) V :=
  fun s =>
    match method with
    | MethodArg.notFn => (s, CallRes.thrown TopErr.invalidArgument)
    | MethodArg.fn f =>
      match name with
      | NameArg.single n =>
        let out := register1 reg n f opts s
        (out.1, CallRes.ret (out.2.mapError TopErr.err))
      | NameArg.list ns =>
        let out := registerMulti reg undef opts ns f s
        (out.1, CallRes.ret (out.2.mapError TopErr.err))

/- ------------------------------------------------------------------ -/
/- Removal model (async-hook.ts lines 100-124).                        -/
/- ------------------------------------------------------------------ -/

/-- The four hook kinds. -/
inductive HookType where
  | before
  | after
  | error
  | wrap
deriving DecidableEq

/-- A registry entry as removeHook sees it: removal only compares function
identities (`item.orig === hook || item.hook === hook`), so entries are
modelled by the identity tags of the stored wrapped hook (`hook`, created in
addHook lines 54-91) and of the consumer's original callable (`orig`),
plus the kind tag. -/
structure RemEntry where
  hookId : Nat
  origId : Nat
  kind : HookType
deriving DecidableEq

/-- The registry object, as an association list with (in reachable states)
unique keys. -/
def RemReg : Type := List (String × List RemEntry)

/-- JS property read registry[name]: first binding for the key, if any. -/
def lookupReg : RemReg → String → Option (List RemEntry)
  | [], _ => none
  | (k, v) :: t, s => if k = s then some v else lookupReg t s

/-- JS `delete registry[name]`. -/
def deleteName : RemReg → String → RemReg
  | [], _ => []
  | (k, v) :: t, s => if k = s then deleteName t s else (k, v) :: deleteName t s

/-- In-place mutation of the array stored under an existing key
(hooks.splice mutates the array object the key points at). -/
def writeName : RemReg → String → List RemEntry → RemReg
  | [], _, _ => []
  | (k, v) :: t, s, nv =>
    if k = s then (s, nv) :: writeName t s nv else (k, v) :: writeName t s nv

/-- `item.orig === hook || item.hook === hook` (line 116). -/
def entryMatches (f : Nat) (e : RemEntry) : Bool :=
  e.origId == f || e.hookId == f

/-- JS truthiness of the `name?: string` parameter: falsy when absent or the
empty string. -/
def nameFalsy : Option String → Bool
  | none => true
  | some s => s == ""

/-- JS property-key coercion for `registry[name]` when `name` is undefined. -/
def nameKey : Option String → String
  | none => "undefined"
  | some s => s

/-- async-hook.ts lines 100-124:
`if (!name && !hook) { state.registry = {}; return; }
if (!hook) { delete state.registry[name]; return; }
const hooks = state.registry[name];
if (hooks) { const i = hooks.findIndex(item => item.orig === hook || item.hook === hook);
if (i !== -1) { hooks.splice(i, 1); if (hooks.length === 0) delete state.registry[name]; } }` -/
def removeHook (reg : RemReg) (name : Option String) (fn : Option Nat) :
    RemReg :=
  if nameFalsy name && fn.isNone then
    []
  else if fn.isNone then
    deleteName reg (nameKey name)
  else
    match fn with
    | none => reg
    | some f =>
      match lookupReg reg (nameKey name) with
      | none => reg
      | some hooks =>
        match hooks.findIdx? (entryMatches f) with
        | none => reg
        | some i =>
          let hooks2 := hooks.eraseIdx i
          if hooks2.isEmpty then deleteName reg (nameKey name)
          else writeName reg (nameKey name) hooks2

/-- Observable hook list of a name: the spec's registry invariant identifies
an absent name with an empty entry list. -/
def hooksOf (reg : RemReg) (s : String) : List RemEntry :=
  (lookupReg reg s).getD []

/- ------------------------------------------------------------------ -/
/- Instrumented hooks used to state the ordering/trace claims.         -/
/- ------------------------------------------------------------------ -/

/-- Events recorded by the instrumented hooks and base methods. -/
inductive Ev (V ε : Type) where
  | beforeCall (i : Nat) (p : V)
  | baseCall (p : V)
  | afterCall (i : Nat) (r : V) (p : V)
  | errorCall (i : Nat) (e : ε) (p : V)
deriving DecidableEq

/-- Trace state: the list of events so far. -/
abbrev Tr (V ε : Type) : Type := List (Ev V ε)

/-- A before hook with identity `i` that records its call (together with the
payload it received) and then produces outcome `out`. -/
def logBefore {V ε : Type} (i : Nat) (out : Except ε V) :
    V → Js (Tr V ε) ε V :=
  fun p s => (s ++ [Ev.beforeCall i p], out)

/-- A base method that records its call and produces `out p`. -/
def logBase {V ε : Type} (out : V → Except ε V) : V → Js (Tr V ε) ε V :=
  fun p s => (s ++ [Ev.baseCall p], out p)

/-- An after hook with identity `i` that records the result and payload it
received and then produces outcome `out` (its return value, per the engine,
is discarded). -/
def logAfter {V ε : Type} (i : Nat) (out : Except ε V) :
    V → V → Js (Tr V ε) ε V :=
  fun r p s => (s ++ [Ev.afterCall i r p], out)

/-- An error hook with identity `i` that records the failure and payload it
received and then behaves as `out` (synchronous throw or returned promise). -/
def logError {V ε : Type} (i : Nat) (out : CallRes ε V) :
    ε → V → Tr V ε → Tr V ε × CallRes ε V :=
  fun e p s => (s ++ [Ev.errorCall i e p], out)

/-- A registry holding the given entries under one name and nothing else. -/
def regOf {σ ε V : Type} (n : String) (es : List (HookEntry σ ε V)) :
    Registry σ ε V :=
  fun m => if m = n then es else []

/-- Sequential form of the before chain, used to reason about beforeFold. -/
def beforeSeq {σ ε V : Type} : List (V → Js σ ε V) → V → Js σ ε PUnit
  | [], _ => Js.pure PUnit.unit
  | b :: t, opts => Js.then (b opts) (fun _ => beforeSeq t opts)

/-- Sequential form of the after chain, used to reason about afterChain. -/
def afterSeq {σ ε V : Type} : List (V → V → Js σ ε V) → V → V → Js σ ε V
  | [], _, r => Js.pure r
  | a :: t, opts, r => Js.then (a r opts) (fun _ => afterSeq t opts r)

/- ------------------------------------------------------------------ -/
/- Basic laws of the Js computation model.                             -/
/- ------------------------------------------------------------------ -/

theorem Js.pure_then {σ ε α β : Type} (a : α) (f : α → Js σ ε β) :
    Js.then (Js.pure a) f = f a := by
  funext s
  simp [Js.then, Js.pure]

theorem Js.then_pure {σ ε α : Type} (x : Js σ ε α) :
    Js.then x (fun a => Js.pure a) = x := by
  funext s
  simp only [Js.then]
  rcases hx : x s with ⟨s1, r⟩
  cases r <;> simp [Js.pure]

theorem Js.then_punit {σ ε : Type} (x : Js σ ε PUnit) :
    Js.then x (fun _ => Js.pure PUnit.unit) = x := by
  funext s
  simp only [Js.then]
  rcases hx : x s with ⟨s1, r⟩
  cases r with
  | error e => simp
  | ok u => cases u; simp [Js.pure]

theorem Js.then_assoc {σ ε α β γ : Type} (x : Js σ ε α) (f : α → Js σ ε β)
    (g : β → Js σ ε γ) :
    Js.then (Js.then x f) g = Js.then x (fun a => Js.then (f a) g) := by
  funext s
  simp only [Js.then]
  rcases hx : x s with ⟨s1, r⟩
  cases r <;> simp

theorem Js.then_run_ok {σ ε α β : Type} (x : Js σ ε α) (f : α → Js σ ε β)
    {s s1 : σ} {a : α} (h : x s = (s1, Except.ok a)) :
    Js.then x f s = f a s1 := by
  simp [Js.then, h]

theorem Js.then_run_error {σ ε α β : Type} (x : Js σ ε α) (f : α → Js σ ε β)
    {s s1 : σ} {e : ε} (h : x s = (s1, Except.error e)) :
    Js.then x f s = (s1, Except.error e) := by
  simp [Js.then, h]

theorem Js.catch_run_ok {σ ε α : Type} (x : Js σ ε α) (h : ε → Js σ ε α)
    {s s1 : σ} {a : α} (hx : x s = (s1, Except.ok a)) :
    Js.catch x h s = (s1, Except.ok a) := by
  simp [Js.catch, hx]

theorem Js.catch_run_error {σ ε α : Type} (x : Js σ ε α) (h : ε → Js σ ε α)
    {s s1 : σ} {e : ε} (hx : x s = (s1, Except.error e)) :
    Js.catch x h s = h e s1 := by
  simp [Js.catch, hx]

theorem Js.catch_rethrow {σ ε α : Type} (x : Js σ ε α) :
    Js.catch x (fun e s => (s, Except.error e)) = x := by
  funext s
  simp only [Js.catch]
  rcases hx : x s with ⟨s1, r⟩
  cases r <;> simp

/- ------------------------------------------------------------------ -/
/- The foldl-built chains equal their sequential recursions.           -/
/- ------------------------------------------------------------------ -/

theorem beforeFold_aux {σ ε V : Type} (opts : V) (bs : List (V → Js σ ε V))
    (init : Js σ ε PUnit) :
    bs.foldl
      (fun p b => Js.then p (fun _ => Js.then (b opts) (fun _ => Js.pure PUnit.unit)))
      init
      = Js.then init (fun _ => beforeSeq bs opts) := by
  induction bs generalizing init with
  | nil => simp [beforeSeq, Js.then_punit]
  | cons b t ih =>
    simp only [List.foldl_cons]
    rw [ih]
    simp only [Js.then_assoc, Js.pure_then, beforeSeq]

theorem beforeFold_eq {σ ε V : Type} (bs : List (V → Js σ ε V)) (opts : V) :
    beforeFold bs opts = beforeSeq bs opts := by
  unfold beforeFold
  rw [beforeFold_aux, Js.pure_then]

theorem afterChain_aux {σ ε V : Type} (opts : V) (as_ : List (V → V → Js σ ε V))
    (init : Js σ ε V) :
    as_.foldl
      (fun p a => Js.then p (fun cur => Js.then (a cur opts) (fun _ => Js.pure cur)))
      init
      = Js.then init (fun r => afterSeq as_ opts r) := by
  induction as_ generalizing init with
  | nil => simp [afterSeq, Js.then_pure]
  | cons a t ih =>
    simp only [List.foldl_cons]
    rw [ih]
    simp only [Js.then_assoc, Js.pure_then, afterSeq]

theorem afterChain_eq {σ ε V : Type} (as_ : List (V → V → Js σ ε V))
    (opts : V) (r : V) :
    afterChain as_ opts r = afterSeq as_ opts r := by
  unfold afterChain
  rw [afterChain_aux, Js.pure_then]

/- ------------------------------------------------------------------ -/
/- Extraction of each kind from an entry list.                         -/
/- ------------------------------------------------------------------ -/

theorem beforeOrigs_append {σ ε V : Type} (u w : List (HookEntry σ ε V)) :
    beforeOrigs (u ++ w) = beforeOrigs u ++ beforeOrigs w := by
  induction u with
  | nil => rfl
  | cons h t ih => cases h <;> simp [beforeOrigs, ih]

theorem afterOrigs_append {σ ε V : Type} (u w : List (HookEntry σ ε V)) :
    afterOrigs (u ++ w) = afterOrigs u ++ afterOrigs w := by
  induction u with
  | nil => rfl
  | cons h t ih => cases h <;> simp [afterOrigs, ih]

theorem errorOrigs_append {σ ε V : Type} (u w : List (HookEntry σ ε V)) :
    errorOrigs (u ++ w) = errorOrigs u ++ errorOrigs w := by
  induction u with
  | nil => rfl
  | cons h t ih => cases h <;> simp [errorOrigs, ih]

theorem wrapOrigs_append {σ ε V : Type} (u w : List (HookEntry σ ε V)) :
    wrapOrigs (u ++ w) = wrapOrigs u ++ wrapOrigs w := by
  induction u with
  | nil => rfl
  | cons h t ih => cases h <;> simp [wrapOrigs, ih]

theorem beforeOrigs_map_before {σ ε V : Type} (l : List Nat)
    (h : Nat → V → Js σ ε V) :
    beforeOrigs (l.map (fun i => HookEntry.before (h i))) = l.map h := by
  induction l with
  | nil => rfl
  | cons a t ih => simp [beforeOrigs, ih]

theorem afterOrigs_map_before {σ ε V : Type} (l : List Nat)
    (h : Nat → V → Js σ ε V) :
    afterOrigs (l.map (fun i => HookEntry.before (h i))) = [] := by
  induction l with
  | nil => rfl
  | cons a t ih => simp [afterOrigs, ih]

theorem errorOrigs_map_before {σ ε V : Type} (l : List Nat)
    (h : Nat → V → Js σ ε V) :
    errorOrigs (l.map (fun i => HookEntry.before (h i))) = [] := by
  induction l with
  | nil => rfl
  | cons a t ih => simp [errorOrigs, ih]

theorem wrapOrigs_map_before {σ ε V : Type} (l : List Nat)
    (h : Nat → V → Js σ ε V) :
    wrapOrigs (l.map (fun i => HookEntry.before (h i))) = [] := by
  induction l with
  | nil => rfl
  | cons a t ih => simp [wrapOrigs, ih]

theorem beforeOrigs_map_after {σ ε V : Type} (l : List Nat)
    (h : Nat → V → V → Js σ ε V) :
    beforeOrigs (l.map (fun i => HookEntry.after (h i))) = [] := by
  induction l with
  | nil => rfl
  | cons a t ih => simp [beforeOrigs, ih]

theorem afterOrigs_map_after {σ ε V : Type} (l : List Nat)
    (h : Nat → V → V → Js σ ε V) :
    afterOrigs (l.map (fun i => HookEntry.after (h i))) = l.map h := by
  induction l with
  | nil => rfl
  | cons a t ih => simp [afterOrigs, ih]

theorem errorOrigs_map_after {σ ε V : Type} (l : List Nat)
    (h : Nat → V → V → Js σ ε V) :
    errorOrigs (l.map (fun i => HookEntry.after (h i))) = [] := by
  induction l with
  | nil => rfl
  | cons a t ih => simp [errorOrigs, ih]

theorem wrapOrigs_map_after {σ ε V : Type} (l : List Nat)
    (h : Nat → V → V → Js σ ε V) :
    wrapOrigs (l.map (fun i => HookEntry.after (h i))) = [] := by
  induction l with
  | nil => rfl
  | cons a t ih => simp [wrapOrigs, ih]

/- ------------------------------------------------------------------ -/
/- Characterisation of the composed callable and of register1.        -/
/- ------------------------------------------------------------------ -/

theorem composed_eq {σ ε V : Type} (hooks : List (HookEntry σ ε V))
    (m : V → Js σ ε V) (opts : V) :
    composed hooks m opts =
      Js.catch
        (Js.then
          (Js.then (beforeSeq (beforeOrigs hooks) opts)
            (fun _ => applyWraps (wrapOrigs hooks) m opts))
          (fun r => afterSeq (afterOrigs hooks) opts r))
        (fun e => errorLoop (errorOrigs hooks) e opts) := by
  unfold composed
  simp only [beforeFold_eq, afterChain_eq]

theorem composed_nil {σ ε V : Type} (m : V → Js σ ε V) (opts : V) :
    composed ([] : List (HookEntry σ ε V)) m opts = m opts := by
  rw [composed_eq]
  show Js.catch
      (Js.then (Js.then (beforeSeq [] opts) (fun _ => applyWraps [] m opts))
        (fun r => afterSeq [] opts r))
      (fun e => errorLoop [] e opts) = m opts
  have h1 : beforeSeq ([] : List (V → Js σ ε V)) opts = Js.pure PUnit.unit := rfl
  have h2 : applyWraps ([] : List ((V → Js σ ε V) → V → Js σ ε V)) m = m := rfl
  have h3 : (fun r => afterSeq ([] : List (V → V → Js σ ε V)) opts r)
      = fun r : V => Js.pure r := rfl
  have h4 : (fun e => errorLoop ([] : List (ε → V → σ → σ × CallRes ε V)) e opts)
      = fun (e : ε) (s : σ) => (s, Except.error e) := rfl
  rw [h1, h2, h3, h4, Js.pure_then, Js.then_pure, Js.catch_rethrow]

theorem register1_eq {σ ε V : Type} (reg : Registry σ ε V) (name : String)
    (m : V → Js σ ε V) (opts : V) :
    register1 reg name m opts = composed (reg name) m opts := by
  unfold register1
  by_cases h : (reg name).isEmpty
  · rw [if_pos h]
    have : reg name = [] := List.isEmpty_iff.mp h
    rw [this, composed_nil]
  · rw [if_neg h]

/- ------------------------------------------------------------------ -/
/- Behaviour of the instrumented hooks in the chains.                 -/
/- ------------------------------------------------------------------ -/

theorem beforeSeq_log_ok {V ε : Type} (l : List Nat) (vv : Nat → V) (p : V)
    (s : Tr V ε) :
    beforeSeq (l.map (fun i => logBefore i (Except.ok (vv i)))) p s
      = (s ++ l.map (fun i => Ev.beforeCall i p), Except.ok PUnit.unit) := by
  induction l generalizing s with
  | nil => simp [beforeSeq, Js.pure]
  | cons a t ih =>
    simp [beforeSeq, Js.then, logBefore, ih]

theorem beforeSeq_log_break {V ε : Type} (l1 l2 : List Nat) (k : Nat)
    (vv : Nat → V) (os : Nat → Except ε V) (e : ε) (p : V) (s : Tr V ε) :
    beforeSeq
        (l1.map (fun i => logBefore i (Except.ok (vv i)))
          ++ logBefore k (Except.error e)
          :: l2.map (fun i => logBefore i (os i))) p s
      = (s ++ l1.map (fun i => Ev.beforeCall i p) ++ [Ev.beforeCall k p],
         Except.error e) := by
  induction l1 generalizing s with
  | nil => simp [beforeSeq, Js.then, logBefore]
  | cons a t ih =>
    simp [beforeSeq, Js.then, logBefore, ih]

theorem afterSeq_log {V ε : Type} (l : List Nat) (ar : Nat → V) (p r : V)
    (s : Tr V ε) :
    afterSeq (l.map (fun i => logAfter i (Except.ok (ar i)))) p r s
      = (s ++ l.map (fun i => Ev.afterCall i r p), Except.ok r) := by
  induction l generalizing s with
  | nil => simp [afterSeq, Js.pure]
  | cons a t ih =>
    simp [afterSeq, Js.then, logAfter, ih]

/- ------------------------------------------------------------------ -/
/- Claim theorems.                                                     -/
/- ------------------------------------------------------------------ -/

/-- Claim C3: for every sequence of after hooks registered under a name and a
successful run of the wrapped base, each after hook receives the base result
and the original payload in registration order, and the value resolved to the
invoker equals the base result regardless of the (arbitrary, discarded) values
`ar i` the after hooks return. -/
theorem after_hooks_receive_result_in_order {V ε : Type} (nm : String)
    (l : List Nat) (ar : Nat → V) (bout : V → V) (p : V) (s : Tr V ε) :
    register1
        (regOf nm (l.map (fun i => HookEntry.after (logAfter i (Except.ok (ar i))))))
        nm (logBase (fun q => Except.ok (bout q))) p s
      = (s ++ [Ev.baseCall p] ++ l.map (fun i => Ev.afterCall i (bout p) p),
         Except.ok (bout p)) := by
  rw [register1_eq]
  simp only [regOf, eq_self_iff_true, if_true]
  rw [composed_eq, beforeOrigs_map_after, afterOrigs_map_after,
    errorOrigs_map_after, wrapOrigs_map_after]
  have h0 : beforeSeq ([] : List (V → Js (Tr V ε) ε V)) p = Js.pure PUnit.unit := rfl
  have hW : applyWraps ([] : List ((V → Js (Tr V ε) ε V) → V → Js (Tr V ε) ε V))
      (logBase (fun q => Except.ok (bout q)))
      = logBase (fun q => Except.ok (bout q)) := rfl
  rw [h0, hW, Js.pure_then]
  have hbase : logBase (fun q => (Except.ok (bout q) : Except ε V)) p s
      = (s ++ [Ev.baseCall p], Except.ok (bout p)) := rfl
  have hX : Js.then (logBase (fun q => (Except.ok (bout q) : Except ε V)) p)
      (fun r => afterSeq (l.map (fun i => logAfter i (Except.ok (ar i)))) p r) s
      = (s ++ [Ev.baseCall p] ++ l.map (fun i => Ev.afterCall i (bout p) p),
         Except.ok (bout p)) := by
    rw [Js.then_run_ok _ _ hbase, afterSeq_log]
  rw [Js.catch_run_ok _ _ hX]

/-- Claim C4: for wrap hooks w1 registered first and w2 registered second
under a name, and base operation f, the composed callable behaves exactly as
w2(w1(f)): the first-registered wrap is innermost, the last-registered
outermost, so invoking on payload p yields w2's transformation of (w1's
transformation of f) applied to p. -/
theorem wrap_hooks_compose_last_outermost {σ ε V : Type} (nm : String)
    (w1 w2 : (V → Js σ ε V) → V → Js σ ε V) (f : V → Js σ ε V) (p : V)
    (s : σ) :
    register1 (regOf nm [HookEntry.wrap w1, HookEntry.wrap w2]) nm f p s
      = w2 (w1 f) p s := by
  rw [register1_eq]
  simp only [regOf, eq_self_iff_true, if_true]
  rw [composed_eq]
  have h1 : beforeSeq (beforeOrigs [HookEntry.wrap w1, HookEntry.wrap w2]) p
      = Js.pure PUnit.unit := rfl
  have h2 : applyWraps (wrapOrigs [HookEntry.wrap w1, HookEntry.wrap w2]) f
      = w2 (w1 f) := rfl
  have h3 : (fun r => afterSeq (afterOrigs [HookEntry.wrap w1, HookEntry.wrap w2]) p r)
      = fun r : V => Js.pure r := rfl
  have h4 : (fun e => errorLoop (errorOrigs [HookEntry.wrap w1, HookEntry.wrap w2]) e p)
      = fun (e : ε) (st : σ) => (st, Except.error e) := rfl
  rw [h1, h2, h3, h4, Js.pure_then, Js.then_pure, Js.catch_rethrow]

/-- Claim C10: invoking register with an array of names reverses the caller's
array in place (line 132: name.reverse() mutates the receiver before the
reduce), so after the invocation the caller's array holds the names in
reversed order; in particular a two-element array is observably changed. -/
theorem register_array_reversed_in_place {σ ε V : Type} (reg : Registry σ ε V)
    (opts : V) (names : List String) (m : V → Js σ ε V) :
    (registerList reg opts names m).2 = names.reverse
      ∧ (registerList reg opts ["a", "b"] m).2 = ["b", "a"]
      ∧ (registerList reg opts ["a", "b"] m).2 ≠ ["a", "b"] := by
  refine ⟨rfl, rfl, ?_⟩
  intro h
  simp [registerList] at h

theorem composed_run_ok {σ ε V : Type} (hooks : List (HookEntry σ ε V))
    (m : V → Js σ ε V) (opts : V) {s s1 s2 : σ} {r r2 : V}
    (h1 : Js.then (beforeSeq (beforeOrigs hooks) opts)
        (fun _ => applyWraps (wrapOrigs hooks) m opts) s = (s1, Except.ok r))
    (h2 : afterSeq (afterOrigs hooks) opts r s1 = (s2, Except.ok r2)) :
    composed hooks m opts s = (s2, Except.ok r2) := by
  rw [composed_eq]
  have hX : Js.then
      (Js.then (beforeSeq (beforeOrigs hooks) opts)
        (fun _ => applyWraps (wrapOrigs hooks) m opts))
      (fun r => afterSeq (afterOrigs hooks) opts r) s = (s2, Except.ok r2) := by
    rw [Js.then_run_ok _ _ h1, h2]
  exact Js.catch_run_ok _ _ hX

theorem composed_run_fail {σ ε V : Type} (hooks : List (HookEntry σ ε V))
    (m : V → Js σ ε V) (opts : V) {s s1 : σ} {e : ε}
    {out : σ × Except ε V}
    (h1 : Js.then (beforeSeq (beforeOrigs hooks) opts)
        (fun _ => applyWraps (wrapOrigs hooks) m opts) s = (s1, Except.error e))
    (h2 : errorLoop (errorOrigs hooks) e opts s1 = out) :
    composed hooks m opts s = out := by
  rw [composed_eq]
  have hX : Js.then
      (Js.then (beforeSeq (beforeOrigs hooks) opts)
        (fun _ => applyWraps (wrapOrigs hooks) m opts))
      (fun r => afterSeq (afterOrigs hooks) opts r) s = (s1, Except.error e) :=
    Js.then_run_error _ _ h1
  rw [Js.catch_run_error _ _ hX, h2]

/-- Claim C2: before hooks registered in a given order run strictly in that
order, each completing before the next starts and before the wrapped base
runs, every one receiving the identical original payload p; and if a before
hook fails, the base is never invoked and the failure goes to error handling
(here: the registered error hook receives it and its outcome r0 decides the
invocation).  The hook identities are the list elements, their (successful)
return values vv i are arbitrary and discarded. -/
theorem before_hooks_order_and_failure_gate {V ε : Type} (nm : String)
    (l l1 l2 : List Nat) (k : Nat) (vv : Nat → V) (os : Nat → Except ε V)
    (bout : V → V) (r0 : Except ε V) (e : ε) (p : V) (s : Tr V ε) :
    (register1
        (regOf nm (l.map (fun i => HookEntry.before (logBefore i (Except.ok (vv i))))
          ++ [HookEntry.error (logError 0 (CallRes.ret r0))]))
        nm (logBase (fun q => Except.ok (bout q))) p s
      = (s ++ l.map (fun i => Ev.beforeCall i p) ++ [Ev.baseCall p],
         Except.ok (bout p)))
    ∧ (register1
        (regOf nm (l1.map (fun i => HookEntry.before (logBefore i (Except.ok (vv i))))
          ++ HookEntry.before (logBefore k (Except.error e))
          :: (l2.map (fun i => HookEntry.before (logBefore i (os i)))
            ++ [HookEntry.error (logError 0 (CallRes.ret r0))])))
        nm (logBase (fun q => Except.ok (bout q))) p s
      = (s ++ l1.map (fun i => Ev.beforeCall i p) ++ [Ev.beforeCall k p]
          ++ [Ev.errorCall 0 e p], r0)) := by
  constructor
  · rw [register1_eq]
    simp only [regOf, eq_self_iff_true, if_true]
    apply composed_run_ok
    · simp only [beforeOrigs_append, beforeOrigs_map_before, beforeOrigs,
        wrapOrigs_append, wrapOrigs_map_before, wrapOrigs, List.append_nil,
        applyWraps, List.foldl_nil]
      rw [Js.then_run_ok _ _ (beforeSeq_log_ok l vv p s)]
      rfl
    · simp only [afterOrigs_append, afterOrigs_map_before, afterOrigs,
        List.append_nil]
      rfl
  · rw [register1_eq]
    simp only [regOf, eq_self_iff_true, if_true]
    apply composed_run_fail
    · simp only [beforeOrigs_append, beforeOrigs_map_before, beforeOrigs,
        wrapOrigs_append, wrapOrigs_map_before, wrapOrigs, List.append_nil,
        applyWraps, List.foldl_nil]
      rw [Js.then_run_error _ _ (beforeSeq_log_break l1 l2 k vv os e p s)]
    · simp only [errorOrigs_append, errorOrigs_map_before, errorOrigs,
        List.append_nil, List.nil_append]
      rfl

/-- Claim C6: if the operation fails with E and an error hook registered
under the name completes normally with fallback value v, the invocation
resolves successfully to v (the original failure does not propagate); and
when the first error hook completes normally, a subsequently registered error
hook (of arbitrary behaviour os2) never runs — its call event is absent from
the trace. -/
theorem error_hook_fallback_recovers {V ε : Type} (nm : String) (E : ε)
    (v : V) (os2 : CallRes ε V) (p : V) (s : Tr V ε) :
    (register1
        (regOf nm [HookEntry.error (logError 0 (CallRes.ret (Except.ok v)))])
        nm (logBase (fun _ => Except.error E)) p s
      = (s ++ [Ev.baseCall p] ++ [Ev.errorCall 0 E p], Except.ok v))
    ∧ (register1
        (regOf nm [HookEntry.error (logError 0 (CallRes.ret (Except.ok v))),
                   HookEntry.error (logError 1 os2)])
        nm (logBase (fun _ => Except.error E)) p s
      = (s ++ [Ev.baseCall p] ++ [Ev.errorCall 0 E p], Except.ok v)) := by
  constructor
  · rw [register1_eq]
    simp only [regOf, eq_self_iff_true, if_true]
    apply composed_run_fail
    · simp only [beforeOrigs, wrapOrigs, applyWraps, List.foldl_nil, beforeSeq]
      rw [Js.pure_then]
      rfl
    · rfl
  · rw [register1_eq]
    simp only [regOf, eq_self_iff_true, if_true]
    apply composed_run_fail
    · simp only [beforeOrigs, wrapOrigs, applyWraps, List.foldl_nil, beforeSeq]
      rw [Js.pure_then]
      rfl
    · rfl

/-- Claim C7: with no error hook registered under the name (here: before
hooks that all succeed and after hooks are present, but no error entry), an
operation failing with E makes the invocation fail with exactly that same E —
nothing is wrapped or replaced and the after hooks never run; and even when
error hooks exist but all throw synchronously, the original E (not a hook's
own failure) reaches the invoker: the engine never swallows a failure. -/
theorem no_error_hook_failure_is_exact {V ε : Type} (nm : String)
    (l l2 : List Nat) (vv : Nat → V) (ar : Nat → V) (E t0 t1 : ε) (p : V)
    (s : Tr V ε) :
    (register1
        (regOf nm (l.map (fun i => HookEntry.before (logBefore i (Except.ok (vv i))))
          ++ l2.map (fun i => HookEntry.after (logAfter i (Except.ok (ar i))))))
        nm (logBase (fun _ => Except.error E)) p s
      = (s ++ l.map (fun i => Ev.beforeCall i p) ++ [Ev.baseCall p],
         Except.error E))
    ∧ (register1
        (regOf nm [HookEntry.error (logError 0 (CallRes.thrown t0)),
                   HookEntry.error (logError 1 (CallRes.thrown t1))])
        nm (logBase (fun _ => Except.error E)) p s
      = (s ++ [Ev.baseCall p] ++ [Ev.errorCall 0 E p] ++ [Ev.errorCall 1 E p],
         Except.error E)) := by
  constructor
  · rw [register1_eq]
    simp only [regOf, eq_self_iff_true, if_true]
    apply composed_run_fail
    · simp only [beforeOrigs_append, beforeOrigs_map_before,
        beforeOrigs_map_after, wrapOrigs_append, wrapOrigs_map_before,
        wrapOrigs_map_after, List.append_nil, applyWraps, List.foldl_nil]
      rw [Js.then_run_ok _ _ (beforeSeq_log_ok l vv p s)]
      rfl
    · simp only [errorOrigs_append, errorOrigs_map_before,
        errorOrigs_map_after, List.append_nil]
      rfl
  · rw [register1_eq]
    simp only [regOf, eq_self_iff_true, if_true]
    apply composed_run_fail
    · simp only [beforeOrigs, wrapOrigs, applyWraps, List.foldl_nil, beforeSeq]
      rw [Js.pure_then]
      rfl
    · rfl

/-- Claim C9 (implicit error-chaining policy): (i) an error hook that throws
synchronously is skipped and the next error hook is tried — here hook 0
throws t0, hook 1 returns normally with suspension outcome r1 (which may
itself be a rejection) and that outcome becomes the invocation's outcome,
hook 2 (arbitrary os2) never running; (ii) if every error hook throws
synchronously, the original failure E — not the last hook's t2 — is rethrown;
(iii) an error hook that returns normally a suspension that rejects with e1
has that rejection propagate without the next error hook (arbitrary os1)
being tried. -/
theorem error_chain_policy_asymmetric {V ε : Type} (nm : String)
    (E t0 t1 t2 e1 : ε) (r1 : Except ε V) (os1 os2 : CallRes ε V) (p : V)
    (s : Tr V ε) :
    (register1
        (regOf nm [HookEntry.error (logError 0 (CallRes.thrown t0)),
                   HookEntry.error (logError 1 (CallRes.ret r1)),
                   HookEntry.error (logError 2 os2)])
        nm (logBase (fun _ => Except.error E)) p s
      = (s ++ [Ev.baseCall p] ++ [Ev.errorCall 0 E p] ++ [Ev.errorCall 1 E p],
         r1))
    ∧ (register1
        (regOf nm [HookEntry.error (logError 0 (CallRes.thrown t0)),
                   HookEntry.error (logError 1 (CallRes.thrown t1)),
                   HookEntry.error (logError 2 (CallRes.thrown t2))])
        nm (logBase (fun _ => Except.error E)) p s
      = (s ++ [Ev.baseCall p] ++ [Ev.errorCall 0 E p] ++ [Ev.errorCall 1 E p]
          ++ [Ev.errorCall 2 E p], Except.error E))
    ∧ (register1
        (regOf nm [HookEntry.error (logError 0 (CallRes.ret (Except.error e1))),
                   HookEntry.error (logError 1 os1)])
        nm (logBase (fun _ => Except.error E)) p s
      = (s ++ [Ev.baseCall p] ++ [Ev.errorCall 0 E p], Except.error e1)) := by
  refine ⟨?_, ?_, ?_⟩
  · rw [register1_eq]
    simp only [regOf, eq_self_iff_true, if_true]
    apply composed_run_fail
    · simp only [beforeOrigs, wrapOrigs, applyWraps, List.foldl_nil, beforeSeq]
      rw [Js.pure_then]
      rfl
    · rfl
  · rw [register1_eq]
    simp only [regOf, eq_self_iff_true, if_true]
    apply composed_run_fail
    · simp only [beforeOrigs, wrapOrigs, applyWraps, List.foldl_nil, beforeSeq]
      rw [Js.pure_then]
      rfl
    · rfl
  · rw [register1_eq]
    simp only [regOf, eq_self_iff_true, if_true]
    apply composed_run_fail
    · simp only [beforeOrigs, wrapOrigs, applyWraps, List.foldl_nil, beforeSeq]
      rw [Js.pure_then]
      rfl
    · rfl

theorem registerMulti_pair {σ ε V : Type} (reg : Registry σ ε V)
    (undef opts : V) (x y : String) (m : V → Js σ ε V) :
    registerMulti reg undef opts [x, y] m
      = register1 reg x (fun _ => register1 reg y m opts) opts := rfl

/-- Claim C5: for a name list [a, b], the composed callable is the composition
of a's hooks around b's hooks around the base (names reduced right-to-left,
first-listed outermost): structurally, registerMulti on [x, y] equals
register1 for x wrapped around register1 for y (first conjunct, for every
registry and method); and with a before and an after hook on each of a and b,
a's before hook runs first, then b's, then the base, then b's after hook,
then a's after hook, every hook receiving the original payload. -/
theorem multi_name_first_listed_outermost {V ε : Type} (a b : String)
    (hab : a ≠ b) (undef opts va vb ra rb : V) (bout : V → V) (s : Tr V ε)
    (reg2 : Registry (Tr V ε) ε V) (m2 : V → Js (Tr V ε) ε V)
    (x y : String) :
    (registerMulti reg2 undef opts [x, y] m2
       = register1 reg2 x (fun _ => register1 reg2 y m2 opts) opts)
    ∧ (registerMulti
        (fun n =>
          if n = a then
            [HookEntry.before (logBefore 0 (Except.ok va)),
             HookEntry.after (logAfter 0 (Except.ok ra))]
          else if n = b then
            [HookEntry.before (logBefore 1 (Except.ok vb)),
             HookEntry.after (logAfter 1 (Except.ok rb))]
          else [])
        undef opts [a, b] (logBase (fun q => Except.ok (bout q))) s
      = (s ++ [Ev.beforeCall 0 opts] ++ [Ev.beforeCall 1 opts]
          ++ [Ev.baseCall opts] ++ [Ev.afterCall 1 (bout opts) opts]
          ++ [Ev.afterCall 0 (bout opts) opts],
         Except.ok (bout opts))) := by
  constructor
  · rfl
  · have hinner : ∀ t : Tr V ε,
        register1
          (fun n =>
            if n = a then
              [HookEntry.before (logBefore 0 (Except.ok va)),
               HookEntry.after (logAfter 0 (Except.ok ra))]
            else if n = b then
              [HookEntry.before (logBefore 1 (Except.ok vb)),
               HookEntry.after (logAfter 1 (Except.ok rb))]
            else [])
          b (logBase (fun q => Except.ok (bout q))) opts t
        = (t ++ [Ev.beforeCall 1 opts] ++ [Ev.baseCall opts]
            ++ [Ev.afterCall 1 (bout opts) opts], Except.ok (bout opts)) := by
      intro t
      rw [register1_eq]
      simp only [if_neg (Ne.symm hab), eq_self_iff_true, if_true]
      apply composed_run_ok
      · rfl
      · rfl
    rw [registerMulti_pair, register1_eq]
    simp only [eq_self_iff_true, if_true]
    apply composed_run_ok
    · have hbs : beforeSeq
          (beforeOrigs
            [HookEntry.before (logBefore 0 (Except.ok va)),
             HookEntry.after (logAfter 0 (Except.ok ra))]) opts s
          = (s ++ [Ev.beforeCall 0 opts], Except.ok PUnit.unit) := rfl
      rw [Js.then_run_ok _ _ hbs]
      exact hinner (s ++ [Ev.beforeCall 0 opts])
    · rfl

/-- Claim C1 (amended): invoking register with a non-callable in place of the
base operation throws the invalid-argument error synchronously, before any
hook runs (the trace is unchanged) and without calling the base; an empty
name list, however, is NOT rejected: the multi-name reduce degenerates to
calling the base operation directly, with the undefined payload of a
zero-argument call. -/
theorem register_noncallable_rejected {σ ε V : Type} (reg : Registry σ ε V)
    (undef opts : V) (name : NameArg) (f : V → Js σ ε V) (s : σ) :
    (register reg undef name MethodArg.notFn opts s
       = (s, CallRes.thrown TopErr.invalidArgument))
    ∧ (register reg undef (NameArg.list []) (MethodArg.fn f) opts s
       = ((f undef s).1, CallRes.ret ((f undef s).2.mapError TopErr.err))) := by
  constructor
  · rfl
  · rfl

/-- Claim C1 counterexample: with a hook registered and a callable base, an
invocation with an EMPTY name list does not fail with the invalid-argument
error — it calls the base operation (with the undefined payload 99) and
resolves with its result, contradicting the claim that an empty name list
fails immediately with InvalidArgument before any hook or the base runs. -/
theorem register_empty_list_counterexample :
    register (regOf "a" [HookEntry.before (logBefore 0 (Except.ok (0 : Nat)))])
        (99 : Nat) (NameArg.list [])
        (MethodArg.fn (logBase (fun q => Except.ok q))) (5 : Nat)
        ([] : Tr Nat Nat)
      = ([Ev.baseCall 99], CallRes.ret (Except.ok 99))
    ∧ register (regOf "a" [HookEntry.before (logBefore 0 (Except.ok (0 : Nat)))])
        (99 : Nat) (NameArg.list [])
        (MethodArg.fn (logBase (fun q => Except.ok q))) (5 : Nat)
        ([] : Tr Nat Nat)
      ≠ (([] : Tr Nat Nat), CallRes.thrown TopErr.invalidArgument) := by
  constructor
  · rfl
  · decide

/- ------------------------------------------------------------------ -/
/- Lemmas about the removal model.                                     -/
/- ------------------------------------------------------------------ -/

theorem lookupReg_deleteName_self (reg : RemReg) (s : String) :
    lookupReg (deleteName reg s) s = none := by
  induction reg with
  | nil => rfl
  | cons kv tl ih =>
    rcases kv with ⟨k, v⟩
    by_cases h : k = s
    · simp [deleteName, h, ih]
    · simp [deleteName, lookupReg, h, ih]

theorem lookupReg_deleteName_other (reg : RemReg) (s t : String) (hts : t ≠ s) :
    lookupReg (deleteName reg s) t = lookupReg reg t := by
  induction reg with
  | nil => rfl
  | cons kv tl ih =>
    rcases kv with ⟨k, v⟩
    have hst : ¬s = t := fun hh => hts hh.symm
    by_cases h : k = s
    · simp [deleteName, lookupReg, h, hst, ih]
    · by_cases hk : k = t <;> simp [deleteName, lookupReg, h, hk, ih, hts]

theorem lookupReg_writeName_self (reg : RemReg) (s : String)
    (v hooks : List RemEntry) (h : lookupReg reg s = some hooks) :
    lookupReg (writeName reg s v) s = some v := by
  induction reg with
  | nil => simp [lookupReg] at h
  | cons kv tl ih =>
    rcases kv with ⟨k, w⟩
    by_cases hk : k = s
    · simp [writeName, lookupReg, hk]
    · simp [lookupReg, hk] at h
      simp [writeName, lookupReg, hk, ih h]

theorem lookupReg_writeName_other (reg : RemReg) (s t : String)
    (v : List RemEntry) (hts : t ≠ s) :
    lookupReg (writeName reg s v) t = lookupReg reg t := by
  induction reg with
  | nil => rfl
  | cons kv tl ih =>
    rcases kv with ⟨k, w⟩
    have hst : ¬s = t := fun hh => hts hh.symm
    by_cases hk : k = s
    · simp [writeName, lookupReg, hk, hst, ih]
    · by_cases hkt : k = t <;> simp [writeName, lookupReg, hk, hkt, ih, hts]

theorem findIdx_none_eraseP {α : Type} (p : α → Bool) (l : List α)
    (h : l.findIdx? p = none) : l.eraseP p = l := by
  induction l with
  | nil => rfl
  | cons x xs ih =>
    rw [List.findIdx?_cons] at h
    by_cases hp : p x
    · rw [if_pos hp] at h
      simp at h
    · rw [if_neg hp, List.findIdx?_succ] at h
      simp only [Option.map_eq_none'] at h
      rw [List.eraseP_cons_of_neg hp, ih h]

theorem findIdx_some_eraseIdx_eraseP {α : Type} (p : α → Bool) (l : List α)
    (i : Nat) (h : l.findIdx? p = some i) : l.eraseIdx i = l.eraseP p := by
  induction l generalizing i with
  | nil => simp at h
  | cons x xs ih =>
    rw [List.findIdx?_cons] at h
    by_cases hp : p x
    · rw [if_pos hp] at h
      have hz : i = 0 := by
        cases h
        rfl
      rw [hz, List.eraseP_cons_of_pos hp]
      rfl
    · rw [if_neg hp, List.findIdx?_succ] at h
      rcases hmap : xs.findIdx? p with _ | j
      · rw [hmap] at h
        simp at h
      · rw [hmap] at h
        simp only [Option.map_some'] at h
        have hi : i = j + 1 := by
          cases h
          rfl
        rw [hi, List.eraseP_cons_of_neg hp]
        show x :: xs.eraseIdx j = x :: xs.eraseP p
        rw [ih j hmap]

/-- Claim C8 (amended): removeHook has its three documented modes, observed
through the registry invariant that an absent name equals an empty entry
list: with no arguments it clears everything; with a NONEMPTY name s and no
hook it clears exactly s, leaving every other name t unchanged; with a name u
and a hook identity f it removes exactly the first entry under u one of whose
stored callables (orig or generated wrapper) equals f — a no-op when none
matches — leaving the other entries under u in order and every other name
unchanged.  (For the empty-string name with no hook the claim fails: JS
falsiness sends it to the clear-everything branch, see the counterexample.) -/
theorem removeHook_three_modes (reg : RemReg) (s t u : String) (f : Nat)
    (hs : s ≠ "") (hts : t ≠ s) (htu : t ≠ u) :
    removeHook reg none none = []
    ∧ hooksOf (removeHook reg (some s) none) s = []
    ∧ hooksOf (removeHook reg (some s) none) t = hooksOf reg t
    ∧ hooksOf (removeHook reg (some u) (some f)) u
        = (hooksOf reg u).eraseP (entryMatches f)
    ∧ hooksOf (removeHook reg (some u) (some f)) t = hooksOf reg t := by
  have hmode2 : removeHook reg (some s) none = deleteName reg s := by
    have h1 : nameFalsy (some s) = false := by
      simp [nameFalsy, hs]
    simp [removeHook, h1, nameKey]
  have hred : removeHook reg (some u) (some f)
      = (match lookupReg reg u with
         | none => reg
         | some hooks =>
           match hooks.findIdx? (entryMatches f) with
           | none => reg
           | some i =>
             if (hooks.eraseIdx i).isEmpty then deleteName reg u
             else writeName reg u (hooks.eraseIdx i)) := by
    simp [removeHook, nameKey]
  refine ⟨rfl, ?_, ?_, ?_, ?_⟩
  · rw [hmode2]
    simp [hooksOf, lookupReg_deleteName_self]
  · rw [hmode2]
    simp [hooksOf, lookupReg_deleteName_other reg s t hts]
  · rw [hred]
    rcases hl : lookupReg reg u with _ | hooks
    · have hobs : hooksOf reg u = [] := by
        unfold hooksOf
        rw [hl]
        rfl
      rw [hobs]
      rfl
    · have hobs : hooksOf reg u = hooks := by
        unfold hooksOf
        rw [hl]
        rfl
      dsimp only
      rcases hidx : List.findIdx? (entryMatches f) hooks with _ | i
      · dsimp only
        rw [hobs, findIdx_none_eraseP (entryMatches f) hooks hidx]
      · dsimp only
        by_cases hemp : (hooks.eraseIdx i).isEmpty
        · rw [if_pos hemp]
          have hnil : hooks.eraseIdx i = [] := List.isEmpty_iff.mp hemp
          rw [hobs, ← findIdx_some_eraseIdx_eraseP (entryMatches f) hooks i hidx,
            hnil]
          unfold hooksOf
          rw [lookupReg_deleteName_self]
          rfl
        · rw [if_neg hemp]
          rw [hobs, ← findIdx_some_eraseIdx_eraseP (entryMatches f) hooks i hidx]
          unfold hooksOf
          rw [lookupReg_writeName_self reg u (hooks.eraseIdx i) hooks hl]
          rfl
  · rw [hred]
    rcases hl : lookupReg reg u with _ | hooks
    · rfl
    · dsimp only
      rcases hidx : List.findIdx? (entryMatches f) hooks with _ | i
      · rfl
      · dsimp only
        by_cases hemp : (hooks.eraseIdx i).isEmpty
        · rw [if_pos hemp]
          unfold hooksOf
          rw [lookupReg_deleteName_other reg u t htu]
        · rw [if_neg hemp]
          unfold hooksOf
          rw [lookupReg_writeName_other reg u t (hooks.eraseIdx i) htu]

/-- Witness for removeHook_three_modes at a concrete registry: names "a"
(two entries) and "x" (one entry); remove("a", 3) erases the entry whose
orig identity is 3. -/
theorem removeHook_three_modes_witness :
    ("a" : String) ≠ "" ∧ ("x" : String) ≠ "a"
    ∧ (removeHook
          [("a", [⟨0, 1, HookType.before⟩, ⟨2, 3, HookType.error⟩]),
           ("x", [⟨4, 5, HookType.after⟩])] none none = []
       ∧ hooksOf (removeHook
            [("a", [⟨0, 1, HookType.before⟩, ⟨2, 3, HookType.error⟩]),
             ("x", [⟨4, 5, HookType.after⟩])] (some "a") none) "a" = []
       ∧ hooksOf (removeHook
            [("a", [⟨0, 1, HookType.before⟩, ⟨2, 3, HookType.error⟩]),
             ("x", [⟨4, 5, HookType.after⟩])] (some "a") none) "x"
          = hooksOf
              [("a", [⟨0, 1, HookType.before⟩, ⟨2, 3, HookType.error⟩]),
               ("x", [⟨4, 5, HookType.after⟩])] "x"
       ∧ hooksOf (removeHook
            [("a", [⟨0, 1, HookType.before⟩, ⟨2, 3, HookType.error⟩]),
             ("x", [⟨4, 5, HookType.after⟩])] (some "a") (some 3)) "a"
          = (hooksOf
              [("a", [⟨0, 1, HookType.before⟩, ⟨2, 3, HookType.error⟩]),
               ("x", [⟨4, 5, HookType.after⟩])] "a").eraseP (entryMatches 3)
       ∧ hooksOf (removeHook
            [("a", [⟨0, 1, HookType.before⟩, ⟨2, 3, HookType.error⟩]),
             ("x", [⟨4, 5, HookType.after⟩])] (some "a") (some 3)) "x"
          = hooksOf
              [("a", [⟨0, 1, HookType.before⟩, ⟨2, 3, HookType.error⟩]),
               ("x", [⟨4, 5, HookType.after⟩])] "x") :=
  ⟨by decide, by decide,
   removeHook_three_modes
     [("a", [⟨0, 1, HookType.before⟩, ⟨2, 3, HookType.error⟩]),
      ("x", [⟨4, 5, HookType.after⟩])]
     "a" "x" "a" 3 (by decide) (by decide) (by decide)⟩

/-- Claim C8 counterexample: remove with the EMPTY-STRING name and no hook
does not clear only that name — JS falsiness routes it to the clear-all
branch, so the entries of the unrelated name "x" are destroyed as well,
contradicting the claim that remove(name) leaves other names unchanged. -/
theorem removeHook_empty_name_counterexample :
    removeHook [("", [⟨0, 1, HookType.before⟩]), ("x", [⟨2, 3, HookType.after⟩])]
        (some "") none = []
    ∧ hooksOf (removeHook
          [("", [⟨0, 1, HookType.before⟩]), ("x", [⟨2, 3, HookType.after⟩])]
          (some "") none) "x"
      ≠ hooksOf [("", [⟨0, 1, HookType.before⟩]), ("x", [⟨2, 3, HookType.after⟩])]
          "x" := by
  constructor
  · rfl
  · decide

/-- Witness for multi_name_first_listed_outermost at names "a", "b", payload
1, undefined value 0, and a base adding 10. -/
theorem multi_name_first_listed_outermost_witness :
    ("a" : String) ≠ "b"
    ∧ ((registerMulti (fun _ => ([] : List (HookEntry (Tr Nat Nat) Nat Nat)))
          0 1 ["u", "w"] (logBase (fun q => Except.ok q))
        = register1 (fun _ => []) "u"
            (fun _ => register1 (fun _ => []) "w"
              (logBase (fun q => Except.ok q)) 1) 1)
      ∧ (registerMulti
          (fun n =>
            if n = "a" then
              [HookEntry.before (logBefore 0 (Except.ok 2)),
               HookEntry.after (logAfter 0 (Except.ok 4))]
            else if n = "b" then
              [HookEntry.before (logBefore 1 (Except.ok 3)),
               HookEntry.after (logAfter 1 (Except.ok 5))]
            else [])
          0 1 ["a", "b"] (logBase (fun q => Except.ok (q + 10))) []
        = ([] ++ [Ev.beforeCall 0 1] ++ [Ev.beforeCall 1 1] ++ [Ev.baseCall 1]
            ++ [Ev.afterCall 1 (1 + 10) 1] ++ [Ev.afterCall 0 (1 + 10) 1],
           (Except.ok (1 + 10) : Except Nat Nat)))) :=
  ⟨by decide,
   multi_name_first_listed_outermost "a" "b" (by decide) 0 1 2 3 4 5
     (fun q => q + 10) [] (fun _ => []) (logBase (fun q => Except.ok q))
     "u" "w"⟩
